import Mathlib

/-!
Verification of the particle-viewer core of `bhorsting/particle-test`.

The TypeScript source is shallowly embedded over `ℚ`.  JavaScript numbers are
modelled as exact rationals; division is Lean's totalized division (`x / 0 = 0`).
Transcendental library calls that no verified property depends on
(`Math.sqrt`, `Math.cos (atan2 y x)`, `Math.sin (atan2 y x)`, `Math.pow 2 t`)
are passed in as oracle function parameters, so every theorem holds for the
actual real-valued functions in particular.  `Math.random()` draws are passed
in as explicit streams.

Embedded code:
* `imageToParticlesData`   — the pixel-sampling loop of `imageToParticles`
* `easeInOutCubic`, `easeOutExponential`, `explodeForce`, `implodeSpeed`
* `updateCameraForParticlesZ` — the `userData` branch of `updateCameraForParticles`
* `seedFar`                — the far-position seeding loop of `transitionToNext`
* `explodeSet` / `implodeSet` / `animateFrameState` — one `animateTransition` frame
* `completeTransition`, `runTransition`, `transitionToNext` — the driver
-/

namespace ParticleTest

/-! ## Easing functions (easing.ts / component-local copies) -/

/-- `easeInOutCubic(t) = t < 0.5 ? 4*t*t*t : 1 - Math.pow(-2*t+2, 3)/2`. -/
def easeInOutCubic (t : ℚ) : ℚ :=
  if t < 0.5 then 4 * t * t * t else 1 - (-2 * t + 2) ^ 3 / 2

/-- `explodeForce = 2` (types.ts). -/
def explodeForce : ℚ := 2

/-- `implodeSpeed = 0.02` (types.ts). -/
def implodeSpeed : ℚ := 0.02

lemma easeInOutCubic_zero : easeInOutCubic 0 = 0 := by norm_num [easeInOutCubic]

lemma easeInOutCubic_one : easeInOutCubic 1 = 1 := by norm_num [easeInOutCubic]

lemma easeInOutCubic_monotone {a b : ℚ} (ha : 0 ≤ a) (hab : a ≤ b) (hb : b ≤ 1) :
    easeInOutCubic a ≤ easeInOutCubic b := by
  unfold easeInOutCubic
  rcases lt_or_le a 0.5 with h1 | h1 <;> rcases lt_or_le b 0.5 with h2 | h2
  · simp only [if_pos h1, if_pos h2]
    nlinarith [sq_nonneg (a + b), sq_nonneg (a - b), mul_nonneg ha (le_trans ha hab)]
  · simp only [if_pos h1, if_neg (not_lt.mpr h2)]
    nlinarith [sq_nonneg (-2 * b + 2), mul_nonneg ha ha]
  · exact absurd (lt_of_le_of_lt (le_trans h1 hab) h2) (lt_irrefl _)
  · simp only [if_neg (not_lt.mpr h1), if_neg (not_lt.mpr h2)]
    nlinarith [sq_nonneg ((-2 * a + 2) + (-2 * b + 2)), sq_nonneg ((-2 * a + 2) - (-2 * b + 2)),
      mul_nonneg (by linarith : (0:ℚ) ≤ -2 * b + 2) (by linarith : (0:ℚ) ≤ -2 * b + 2)]

lemma easeInOutCubic_nonneg {t : ℚ} (h0 : 0 ≤ t) (h1 : t ≤ 1) : 0 ≤ easeInOutCubic t := by
  have := easeInOutCubic_monotone (le_refl (0:ℚ)) h0 h1
  rwa [easeInOutCubic_zero] at this

lemma easeInOutCubic_le_one {t : ℚ} (h0 : 0 ≤ t) (h1 : t ≤ 1) : easeInOutCubic t ≤ 1 := by
  have := easeInOutCubic_monotone h0 h1 (le_refl (1:ℚ))
  rwa [easeInOutCubic_one] at this

/-! ## Sampler (`imageToParticles`, the pixel loop)

The canvas content after `drawImage` is modelled as the raw `pixels` byte list
that `getImageData` returns (RGBA, 4 bytes per pixel, row-major), together with
the canvas dimensions.  The two `Math.random()` streams are `randV` (velocity
jitter, indexed by pixel coordinate) and `randD` (per-particle delay).
-/

/-- The coordinates visited by `for (v = 0; v < n; v += step)`:
the multiples of `step` below `n`, in increasing order. -/
def strideRange (n step : ℕ) : List ℕ :=
  (List.range n).filter (fun v => v % step = 0)

/-- The pixel coordinates `(x, y)` visited by the nested sampling loops,
outer loop over `y`, inner loop over `x`. -/
def visitedPixels (w h step : ℕ) : List (ℕ × ℕ) :=
  (strideRange h step).flatMap (fun y => (strideRange w step).map (fun x => (x, y)))

/-- `const normalizedX = (x / canvas.width) * 2 - 1`. -/
def normalizedX (w x : ℕ) : ℚ := (x : ℚ) / (w : ℚ) * 2 - 1

/-- `const normalizedY = 1 - (y / canvas.height) * 2` (y-flipped). -/
def normalizedY (h y : ℕ) : ℚ := 1 - (y : ℚ) / (h : ℚ) * 2

/-- Accumulator for the four arrays pushed to inside the sampling loop. -/
structure SampleAcc where
  positions : List ℚ
  originalPositions : List ℚ
  colors : List ℚ
  velocities : List ℚ

/-- One iteration of the sampling loop body: the two `continue` guards
(index out of bounds, alpha `< 10`) leave the accumulator unchanged,
otherwise one triple is pushed to each array. -/
def sampleStep (w h : ℕ) (pixels : List ℕ) (randV : ℕ → ℕ → ℚ)
    (acc : SampleAcc) (p : ℕ × ℕ) : SampleAcc :=
  let x := p.1
  let y := p.2
  let index := (y * w + x) * 4
  if pixels.length ≤ index + 3 then acc
  else if pixels.getD (index + 3) 0 < 10 then acc
  else
    let rNorm : ℚ := (pixels.getD index 0 : ℚ) / 255
    let gNorm : ℚ := (pixels.getD (index + 1) 0 : ℚ) / 255
    let bNorm : ℚ := (pixels.getD (index + 2) 0 : ℚ) / 255
    let nX := normalizedX w x
    let nY := normalizedY h y
    { positions := acc.positions ++ [nX, nY, 0]
      originalPositions := acc.originalPositions ++ [nX, nY, 0]
      colors := acc.colors ++ [rNorm, gNorm, bNorm]
      velocities := acc.velocities ++ [-nX * 100, -nY * 10, (randV x y - 0.5) * 2] }

/-- `const step = Math.max(1, Math.floor(1 / props.particleDensity))`. -/
def sampleStride (particleDensity : ℚ) : ℕ :=
  (max 1 ⌊1 / particleDensity⌋).toNat

/-- The result of the sampling phase of `imageToParticles`:
the pushed arrays, the per-particle random delays, and
`particleCount = positions.length / 3`. -/
structure SamplerOut where
  positions : List ℚ
  originalPositions : List ℚ
  colors : List ℚ
  velocities : List ℚ
  delays : List ℚ
  count : ℕ

/-- The sampling loop of `imageToParticles` plus the delay array
(`delays[i] = Math.random() * 2000`) and `particleCount`. -/
def imageToParticlesData (w h : ℕ) (particleDensity : ℚ) (pixels : List ℕ)
    (randV : ℕ → ℕ → ℚ) (randD : ℕ → ℚ) : SamplerOut :=
  let acc := (visitedPixels w h (sampleStride particleDensity)).foldl
    (sampleStep w h pixels randV) ⟨[], [], [], []⟩
  let particleCount := acc.positions.length / 3
  { positions := acc.positions
    originalPositions := acc.originalPositions
    colors := acc.colors
    velocities := acc.velocities
    delays := (List.range particleCount).map (fun i => randD i * 2000)
    count := particleCount }

/-- A visited pixel survives both `continue` guards. -/
def keepPixel (w : ℕ) (pixels : List ℕ) (p : ℕ × ℕ) : Bool :=
  decide ((p.2 * w + p.1) * 4 + 3 < pixels.length) &&
    decide (10 ≤ pixels.getD ((p.2 * w + p.1) * 4 + 3) 0)

/-- The surviving sampled pixels, in visit order. -/
def survivors (w h step : ℕ) (pixels : List ℕ) : List (ℕ × ℕ) :=
  (visitedPixels w h step).filter (keepPixel w pixels)

/-- The position entries pushed for one surviving pixel. -/
def posTriple (w h : ℕ) (p : ℕ × ℕ) : List ℚ :=
  [normalizedX w p.1, normalizedY h p.2, 0]

/-- The color entries pushed for one surviving pixel. -/
def colorTriple (w : ℕ) (pixels : List ℕ) (p : ℕ × ℕ) : List ℚ :=
  [(pixels.getD ((p.2 * w + p.1) * 4) 0 : ℚ) / 255,
   (pixels.getD ((p.2 * w + p.1) * 4 + 1) 0 : ℚ) / 255,
   (pixels.getD ((p.2 * w + p.1) * 4 + 2) 0 : ℚ) / 255]

/-- The velocity entries pushed for one surviving pixel. -/
def velTriple (w h : ℕ) (randV : ℕ → ℕ → ℚ) (p : ℕ × ℕ) : List ℚ :=
  [-(normalizedX w p.1) * 100, -(normalizedY h p.2) * 10, (randV p.1 p.2 - 0.5) * 2]

/-- Closed form of the sampling fold: each surviving pixel contributes one
triple to each array, dropped pixels contribute nothing. -/
lemma sampler_foldl_eq (w h : ℕ) (pixels : List ℕ) (randV : ℕ → ℕ → ℚ) :
    ∀ (l : List (ℕ × ℕ)) (acc : SampleAcc),
      l.foldl (sampleStep w h pixels randV) acc =
        ⟨acc.positions ++ (l.filter (keepPixel w pixels)).flatMap (posTriple w h),
         acc.originalPositions ++ (l.filter (keepPixel w pixels)).flatMap (posTriple w h),
         acc.colors ++ (l.filter (keepPixel w pixels)).flatMap (colorTriple w pixels),
         acc.velocities ++ (l.filter (keepPixel w pixels)).flatMap (velTriple w h randV)⟩ := by
  intro l
  induction l with
  | nil => intro acc; simp
  | cons p l ih =>
    intro acc
    by_cases hb : (p.2 * w + p.1) * 4 + 3 < pixels.length
    · by_cases ha : 10 ≤ pixels.getD ((p.2 * w + p.1) * 4 + 3) 0
      · have hk : keepPixel w pixels p = true := by
          simp only [keepPixel, Bool.and_eq_true, decide_eq_true_eq]
          exact ⟨hb, ha⟩
        have hstep : sampleStep w h pixels randV acc p =
            ⟨acc.positions ++ posTriple w h p,
             acc.originalPositions ++ posTriple w h p,
             acc.colors ++ colorTriple w pixels p,
             acc.velocities ++ velTriple w h randV p⟩ := by
          simp only [sampleStep, posTriple, colorTriple, velTriple]
          rw [if_neg (by omega), if_neg (by omega)]
        simp only [List.foldl_cons, hstep, ih, List.filter_cons, hk, if_pos,
          List.flatMap_cons, List.append_assoc]
      · have hk : keepPixel w pixels p = false := by
          unfold keepPixel
          rw [decide_eq_false ha, Bool.and_false]
        have hstep : sampleStep w h pixels randV acc p = acc := by
          simp only [sampleStep]
          rw [if_neg (by omega), if_pos (by omega)]
        simp only [List.foldl_cons, hstep, ih, List.filter_cons, hk]
        simp
    · have hk : keepPixel w pixels p = false := by
        unfold keepPixel
        rw [decide_eq_false hb, Bool.false_and]
      have hstep : sampleStep w h pixels randV acc p = acc := by
        simp only [sampleStep]
        rw [if_pos (by omega)]
      simp only [List.foldl_cons, hstep, ih, List.filter_cons, hk]
      simp

/-- The length of a flatMap of uniform triples. -/
lemma length_flatMap_triple {α : Type} (l : List α) (f : α → List ℚ)
    (hf : ∀ a, (f a).length = 3) : (l.flatMap f).length = 3 * l.length := by
  induction l with
  | nil => simp
  | cons a l ih => simp [List.flatMap_cons, ih, hf, Nat.mul_succ]; ring

/-- Indexing into a flatMap of uniform triples. -/
lemma getD_flatMap_triple {α : Type} (f : α → List ℚ) (hf : ∀ a, (f a).length = 3) :
    ∀ (l : List α) (i : ℕ) (hi : i < l.length) (c : ℕ), c < 3 → ∀ (d : ℚ),
      (l.flatMap f).getD (i * 3 + c) d = (f (l.get ⟨i, hi⟩)).getD c d := by
  intro l
  induction l with
  | nil => intro i hi; simp at hi
  | cons a l ih =>
    intro i hi c hc d
    cases i with
    | zero =>
      simp only [List.flatMap_cons, Nat.zero_mul, Nat.zero_add]
      exact List.getD_append _ _ _ _ (by rw [hf]; exact hc)
    | succ i =>
      have h3 : (f a).length ≤ (i + 1) * 3 + c := by rw [hf]; omega
      simp only [List.flatMap_cons]
      rw [List.getD_append_right _ _ _ _ h3, hf]
      have : (i + 1) * 3 + c - 3 = i * 3 + c := by omega
      rw [this]
      have hi' : i < l.length := by simpa using Nat.lt_of_succ_lt_succ hi
      exact ih i hi' c hc d

/-- The sampler output in closed form. -/
lemma imageToParticlesData_eq (w h : ℕ) (particleDensity : ℚ) (pixels : List ℕ)
    (randV : ℕ → ℕ → ℚ) (randD : ℕ → ℚ) :
    imageToParticlesData w h particleDensity pixels randV randD =
      { positions := (survivors w h (sampleStride particleDensity) pixels).flatMap
          (posTriple w h)
        originalPositions := (survivors w h (sampleStride particleDensity) pixels).flatMap
          (posTriple w h)
        colors := (survivors w h (sampleStride particleDensity) pixels).flatMap
          (colorTriple w pixels)
        velocities := (survivors w h (sampleStride particleDensity) pixels).flatMap
          (velTriple w h randV)
        delays := (List.range
          (survivors w h (sampleStride particleDensity) pixels).length).map
          (fun i => randD i * 2000)
        count := (survivors w h (sampleStride particleDensity) pixels).length } := by
  unfold imageToParticlesData survivors
  rw [sampler_foldl_eq]
  have h3 : (((visitedPixels w h (sampleStride particleDensity)).filter
      (keepPixel w pixels)).flatMap (posTriple w h)).length =
      3 * ((visitedPixels w h (sampleStride particleDensity)).filter
        (keepPixel w pixels)).length :=
    length_flatMap_triple _ _ (fun _ => rfl)
  simp only [List.nil_append, h3, Nat.mul_div_cancel_left _ (by norm_num : 0 < 3)]

/-- C4: for every image and every `particleDensity` in `(0,1]`, the sampler
emits arrays with `positions.length = originalPositions.length = colors.length
= 3 * count` and `delays.length = count`, one entry (triple) of each array per
surviving sampled pixel. -/
theorem sampler_array_lengths (w h : ℕ) (particleDensity : ℚ)
    (hd0 : 0 < particleDensity) (hd1 : particleDensity ≤ 1)
    (pixels : List ℕ) (randV : ℕ → ℕ → ℚ) (randD : ℕ → ℚ) :
    (imageToParticlesData w h particleDensity pixels randV randD).positions.length =
      3 * (imageToParticlesData w h particleDensity pixels randV randD).count ∧
    (imageToParticlesData w h particleDensity pixels randV randD).originalPositions.length =
      3 * (imageToParticlesData w h particleDensity pixels randV randD).count ∧
    (imageToParticlesData w h particleDensity pixels randV randD).colors.length =
      3 * (imageToParticlesData w h particleDensity pixels randV randD).count ∧
    (imageToParticlesData w h particleDensity pixels randV randD).delays.length =
      (imageToParticlesData w h particleDensity pixels randV randD).count ∧
    (imageToParticlesData w h particleDensity pixels randV randD).count =
      (survivors w h (sampleStride particleDensity) pixels).length := by
  rw [imageToParticlesData_eq]
  have hp : ((survivors w h (sampleStride particleDensity) pixels).flatMap
      (posTriple w h)).length =
      3 * (survivors w h (sampleStride particleDensity) pixels).length :=
    length_flatMap_triple _ _ (fun _ => rfl)
  have hc : ((survivors w h (sampleStride particleDensity) pixels).flatMap
      (colorTriple w pixels)).length =
      3 * (survivors w h (sampleStride particleDensity) pixels).length :=
    length_flatMap_triple _ _ (fun _ => rfl)
  exact ⟨hp, hp, hc, by simp, rfl⟩

/-- Witness for `sampler_array_lengths` at a concrete 2×2 all-opaque image. -/
theorem sampler_array_lengths_witness :
    (0:ℚ) < 1 ∧ (1:ℚ) ≤ 1 ∧
    (imageToParticlesData 2 2 1 (List.replicate 16 255) (fun _ _ => 0)
      (fun _ => 0)).positions.length =
      3 * (imageToParticlesData 2 2 1 (List.replicate 16 255) (fun _ _ => 0)
        (fun _ => 0)).count :=
  ⟨by norm_num, by norm_num,
    (sampler_array_lengths 2 2 1 (by norm_num) (by norm_num)
      (List.replicate 16 255) (fun _ _ => 0) (fun _ => 0)).1⟩

/-- C5: every particle's target (original) position is
`((x/w)*2 - 1, 1 - (y/h)*2, 0)` for its surviving source pixel `(x, y)`,
with both components in `[-1, 1]` and `z = 0` exactly. -/
theorem sampler_target_position_normalized (w h : ℕ) (hw : 0 < w) (hh : 0 < h)
    (particleDensity : ℚ) (hd0 : 0 < particleDensity) (hd1 : particleDensity ≤ 1)
    (pixels : List ℕ) (randV : ℕ → ℕ → ℚ) (randD : ℕ → ℚ) (i : ℕ)
    (hi : i < (imageToParticlesData w h particleDensity pixels randV randD).count) :
    ∃ x y : ℕ, x < w ∧ y < h ∧
      (imageToParticlesData w h particleDensity pixels randV randD).originalPositions.getD
        (i * 3) 0 = (x : ℚ) / (w : ℚ) * 2 - 1 ∧
      (imageToParticlesData w h particleDensity pixels randV randD).originalPositions.getD
        (i * 3 + 1) 0 = 1 - (y : ℚ) / (h : ℚ) * 2 ∧
      (imageToParticlesData w h particleDensity pixels randV randD).originalPositions.getD
        (i * 3 + 2) 0 = 0 ∧
      -1 ≤ (imageToParticlesData w h particleDensity pixels randV randD).originalPositions.getD
        (i * 3) 0 ∧
      (imageToParticlesData w h particleDensity pixels randV randD).originalPositions.getD
        (i * 3) 0 ≤ 1 ∧
      -1 ≤ (imageToParticlesData w h particleDensity pixels randV randD).originalPositions.getD
        (i * 3 + 1) 0 ∧
      (imageToParticlesData w h particleDensity pixels randV randD).originalPositions.getD
        (i * 3 + 1) 0 ≤ 1 := by
  rw [imageToParticlesData_eq] at hi ⊢
  set S := survivors w h (sampleStride particleDensity) pixels with hS
  dsimp only at hi ⊢
  have hmem : S.get ⟨i, hi⟩ ∈ S := List.get_mem S i hi
  have hvis : S.get ⟨i, hi⟩ ∈ visitedPixels w h (sampleStride particleDensity) :=
    List.mem_of_mem_filter hmem
  obtain ⟨yy, hy, hx⟩ := List.mem_flatMap.mp hvis
  obtain ⟨xx, hxmem, hxy⟩ := List.mem_map.mp hx
  have hxw : xx < w := by
    have := List.mem_filter.mp hxmem
    exact List.mem_range.mp this.1
  have hyh : yy < h := by
    have := List.mem_filter.mp hy
    exact List.mem_range.mp this.1
  have hfst : S[i] = (xx, yy) := hxy.symm
  have h0 := getD_flatMap_triple (posTriple w h) (fun _ => rfl) S i hi 0 (by norm_num) 0
  have h1 := getD_flatMap_triple (posTriple w h) (fun _ => rfl) S i hi 1 (by norm_num) 0
  have h2 := getD_flatMap_triple (posTriple w h) (fun _ => rfl) S i hi 2 (by norm_num) 0
  simp only [Nat.add_zero] at h0
  have hv0 : (S.flatMap (posTriple w h)).getD (i * 3) 0 = (xx : ℚ) / (w : ℚ) * 2 - 1 := by
    rw [h0]; simp [posTriple, normalizedX, hfst]
  have hv1 : (S.flatMap (posTriple w h)).getD (i * 3 + 1) 0 = 1 - (yy : ℚ) / (h : ℚ) * 2 := by
    rw [h1]; simp [posTriple, normalizedY, hfst]
  have hv2 : (S.flatMap (posTriple w h)).getD (i * 3 + 2) 0 = 0 := by
    rw [h2]; simp [posTriple]
  have hwQ : (0 : ℚ) < (w : ℚ) := by exact_mod_cast hw
  have hhQ : (0 : ℚ) < (h : ℚ) := by exact_mod_cast hh
  have hxle : (xx : ℚ) ≤ (w : ℚ) := le_of_lt (by exact_mod_cast hxw)
  have hyle : (yy : ℚ) ≤ (h : ℚ) := le_of_lt (by exact_mod_cast hyh)
  have hxd0 : (0 : ℚ) ≤ (xx : ℚ) / (w : ℚ) := div_nonneg (Nat.cast_nonneg xx) (le_of_lt hwQ)
  have hxd1 : (xx : ℚ) / (w : ℚ) ≤ 1 := (div_le_one hwQ).mpr hxle
  have hyd0 : (0 : ℚ) ≤ (yy : ℚ) / (h : ℚ) := div_nonneg (Nat.cast_nonneg yy) (le_of_lt hhQ)
  have hyd1 : (yy : ℚ) / (h : ℚ) ≤ 1 := (div_le_one hhQ).mpr hyle
  refine ⟨xx, yy, hxw, hyh, hv0, hv1, hv2, ?_, ?_, ?_, ?_⟩
  · rw [hv0]; linarith
  · rw [hv0]; linarith
  · rw [hv1]; linarith
  · rw [hv1]; linarith

/-! ## Flat position-array updates

Every animation loop in the component iterates `for (i = 0; i < count; i++)`,
reads the triple `positions[i*3] ?? 0, positions[i*3+1] ?? 0,
positions[i*3+2] ?? 0` and writes the same three slots back.
`mapParticles` is that loop shape; the per-particle body is the parameter. -/

/-- Write one particle's triple: `positions[i*3] = x; positions[i*3+1] = y;
positions[i*3+2] = z`. -/
def set3 (l : List ℚ) (i : ℕ) (x y z : ℚ) : List ℚ :=
  ((l.set (i * 3) x).set (i * 3 + 1) y).set (i * 3 + 2) z

/-- Read one particle's triple with the source's `?? 0` defaults. -/
def getTriple (l : List ℚ) (i : ℕ) : ℚ × ℚ × ℚ :=
  (l.getD (i * 3) 0, l.getD (i * 3 + 1) 0, l.getD (i * 3 + 2) 0)

/-- The per-particle update loop over a flat position array. -/
def mapParticles (count : ℕ) (f : ℕ → ℚ × ℚ × ℚ → ℚ × ℚ × ℚ)
    (positions : List ℚ) : List ℚ :=
  (List.range count).foldl
    (fun ps i =>
      let p := f i (getTriple ps i)
      set3 ps i p.1 p.2.1 p.2.2)
    positions

/-- Flatten per-particle triples back into a flat array. -/
def flatTriples (l : List (ℚ × ℚ × ℚ)) : List ℚ :=
  l.flatMap (fun p => [p.1, p.2.1, p.2.2])

lemma length_set3 (l : List ℚ) (i : ℕ) (x y z : ℚ) : (set3 l i x y z).length = l.length := by
  simp [set3]

lemma length_flatTriples (l : List (ℚ × ℚ × ℚ)) : (flatTriples l).length = 3 * l.length := by
  unfold flatTriples
  induction l with
  | nil => simp
  | cons a l ih =>
    simp [List.flatMap_cons, ih, Nat.mul_succ]

/-- The three writes of `set3` at particle `n` land entirely in the suffix
after a prefix of `3 * n` entries. -/
lemma set3_append_triple (n : ℕ) (A : List ℚ) (hA : A.length = 3 * n)
    (a b c : ℚ) (R : List ℚ) (x y z : ℚ) :
    set3 (A ++ a :: b :: c :: R) n x y z = A ++ x :: y :: z :: R := by
  unfold set3
  rw [List.set_append_right _ _ (by omega : A.length ≤ n * 3),
    List.set_append_right _ _ (by omega : A.length ≤ n * 3 + 1),
    List.set_append_right _ _ (by omega : A.length ≤ n * 3 + 2)]
  have e0 : n * 3 - A.length = 0 := by omega
  have e1 : n * 3 + 1 - A.length = 1 := by omega
  have e2 : n * 3 + 2 - A.length = 2 := by omega
  rw [e0, e1, e2]
  simp

lemma flatTriples_append (l₁ l₂ : List (ℚ × ℚ × ℚ)) :
    flatTriples (l₁ ++ l₂) = flatTriples l₁ ++ flatTriples l₂ := by
  simp [flatTriples]

/-- Closed form of the update loop: on an array of exactly `3 * count` entries
it maps each particle's triple through `f`, reading the pre-update triple
(each loop iteration touches only its own three slots). -/
lemma mapParticles_eq (f : ℕ → ℚ × ℚ × ℚ → ℚ × ℚ × ℚ) :
    ∀ (count : ℕ) (positions : List ℚ), positions.length = 3 * count →
      mapParticles count f positions =
        flatTriples ((List.range count).map (fun i => f i (getTriple positions i))) := by
  have main : ∀ (n : ℕ) (count : ℕ) (positions : List ℚ), positions.length = 3 * count →
      n ≤ count →
      (List.range n).foldl
        (fun ps i =>
          let p := f i (getTriple ps i)
          set3 ps i p.1 p.2.1 p.2.2) positions =
        flatTriples ((List.range n).map (fun i => f i (getTriple positions i))) ++
          positions.drop (3 * n) := by
    intro n
    induction n with
    | zero => intro count positions hlen hn; simp [flatTriples]
    | succ n ih =>
      intro count positions hlen hn
      rw [List.range_succ, List.foldl_append, List.foldl_cons, List.foldl_nil,
        ih count positions hlen (Nat.le_of_succ_le hn)]
      set B := flatTriples ((List.range n).map (fun i => f i (getTriple positions i)))
        with hB
      have hflen : B.length = 3 * n := by
        rw [hB, length_flatTriples, List.length_map, List.length_range]
      have hdlen : 3 * n + 3 ≤ positions.length := by
        rw [hlen]; omega
      -- the triple read back at index `n` is the original triple there
      have hget : ∀ c : ℕ, c < 3 →
          (B ++ positions.drop (3 * n)).getD (n * 3 + c) 0 =
            positions.getD (n * 3 + c) 0 := by
        intro c hc
        rw [List.getD_append_right _ _ _ _ (by rw [hflen]; omega), hflen]
        have h1 : n * 3 + c - 3 * n = c := by omega
        rw [h1]
        simp only [List.getD_eq_getElem?_getD, List.getElem?_drop]
        have h2 : 3 * n + c = n * 3 + c := by omega
        rw [h2]
      have hget0 := hget 0 (by omega)
      have hget1 := hget 1 (by omega)
      have hget2 := hget 2 (by omega)
      simp only [Nat.add_zero] at hget0
      have htrip : getTriple (B ++ positions.drop (3 * n)) n = getTriple positions n := by
        unfold getTriple
        rw [hget0, hget1, hget2]
      dsimp only
      rw [htrip]
      have hd0 : 3 * n < positions.length := by omega
      have hd1 : 3 * n + 1 < positions.length := by omega
      have hd2 : 3 * n + 1 + 1 < positions.length := by omega
      rw [List.drop_eq_getElem_cons hd0, List.drop_eq_getElem_cons hd1,
        List.drop_eq_getElem_cons hd2,
        set3_append_triple n _ hflen _ _ _ _ _ _ _,
        List.map_append, flatTriples_append]
      have h31 : 3 * (n + 1) = 3 * n + 1 + 1 + 1 := by omega
      rw [h31]
      simp [hB, flatTriples]
  intro count positions hlen
  have hmain := main count count positions hlen (le_refl count)
  rw [mapParticles, hmain]
  have hnil : positions.drop (3 * count) = [] :=
    List.drop_eq_nil_of_le (by rw [hlen])
  rw [hnil, List.append_nil]

/-! ## Particle sets and the transition driver

A `PSet` is the `userData` of one `InstancedMesh` produced by
`imageToParticles`, plus the mesh identity (`id`, for scene membership and
disposal tracking) and the material's `opacity`.  The `!userData` null guards
of the source can never fire for meshes built by `imageToParticles` and are
not modelled. -/

structure PSet where
  id : ℕ
  positions : List ℚ
  originalPositions : List ℚ
  colors : List ℚ
  delays : List ℚ
  count : ℕ
  opacity : ℚ

/-- Oracles for the transcendental library calls of the animation code.
`cosAtan2 y x` stands for `Math.cos(Math.atan2(y, x))`, `sinAtan2` likewise,
and `exp2 t` for `Math.pow(2, t)`.  No verified claim depends on their
values, so all theorems are quantified over them. -/
structure Oracles where
  cosAtan2 : ℚ → ℚ → ℚ
  sinAtan2 : ℚ → ℚ → ℚ
  exp2 : ℚ → ℚ

/-- `easeOutExponential(t) = t === 1 ? 1 : 1 - Math.pow(2, -10*t)`. -/
def easeOutExponential (O : Oracles) (t : ℚ) : ℚ :=
  if t = 1 then 1 else 1 - O.exp2 (-10 * t)

/-- One frame of the `animateTransition` loop: the `Math.random()` draws made
for particle `i` of the exploding set on this frame (force jitter, x lateral,
y lateral, z), plus the frame's `elapsed = Date.now() - startTime`. -/
structure Frame where
  elapsed : ℚ
  rnd : ℕ → ℚ × ℚ × ℚ × ℚ

/-- Per-particle body of the explode loop of `animateTransition`
(outgoing set). -/
def explodeF (O : Oracles) (duration : ℚ) (delays origs : List ℚ)
    (rnd : ℕ → ℚ × ℚ × ℚ × ℚ) (elapsed : ℚ) (i : ℕ) (cur : ℚ × ℚ × ℚ) :
    ℚ × ℚ × ℚ :=
  let particleDelay := delays.getD i 0
  let particleElapsed := max 0 (elapsed - particleDelay)
  let particleProgress := min (particleElapsed / duration) 1
  let particleExplodeEase := easeOutExponential O particleProgress
  let x := origs.getD (i * 3) 0
  let y := origs.getD (i * 3 + 1) 0
  let r := rnd i
  let force := explodeForce * (1 + r.1 * 0.5)
  let vx := (O.cosAtan2 y x * force + (r.2.1 - 0.5) * 0.5) * particleExplodeEase * 0.1
  let vy := (O.sinAtan2 y x * force + (r.2.2.1 - 0.5) * 0.5) * particleExplodeEase * 0.1
  let vz := (r.2.2.2 - 0.5) * explodeForce * particleExplodeEase * 0.1
  (cur.1 + vx, cur.2.1 + vy, cur.2.2 + vz)

/-- Per-particle body of the implode loop of `animateTransition`
(incoming set). -/
def implodeF (duration : ℚ) (delays origs : List ℚ) (elapsed : ℚ) (i : ℕ)
    (cur : ℚ × ℚ × ℚ) : ℚ × ℚ × ℚ :=
  let particleDelay := delays.getD i 0
  let particleElapsed := max 0 (elapsed - particleDelay)
  let particleProgress := min (particleElapsed / duration) 1
  let particleEaseProgress := easeInOutCubic particleProgress
  let targetX := origs.getD (i * 3) 0
  let targetY := origs.getD (i * 3 + 1) 0
  let targetZ := origs.getD (i * 3 + 2) 0
  (cur.1 + (targetX - cur.1) * implodeSpeed * (1 + particleEaseProgress * 10),
   cur.2.1 + (targetY - cur.2.1) * implodeSpeed * (1 + particleEaseProgress * 10),
   cur.2.2 + (targetZ - cur.2.2) * implodeSpeed * (1 + particleEaseProgress * 10))

/-- The explode half of one `animateTransition` frame applied to the outgoing
set: per-particle position update plus
`material.opacity = 0.9 * (1 - easeProgress)`. -/
def explodeSet (O : Oracles) (duration elapsed : ℚ) (rnd : ℕ → ℚ × ℚ × ℚ × ℚ)
    (cp : PSet) : PSet :=
  { cp with
    positions := mapParticles cp.count
      (explodeF O duration cp.delays cp.originalPositions rnd elapsed) cp.positions
    opacity := 0.9 * (1 - easeInOutCubic (min (elapsed / duration) 1)) }

/-- The implode half of one `animateTransition` frame applied to the incoming
set: per-particle position update plus `material.opacity = 0.9 * easeProgress`. -/
def implodeSet (duration elapsed : ℚ) (np : PSet) : PSet :=
  { np with
    positions := mapParticles np.count
      (implodeF duration np.delays np.originalPositions elapsed) np.positions
    opacity := 0.9 * easeInOutCubic (min (elapsed / duration) 1) }

/-! ## Camera framer (`updateCameraForParticles`, `userData` branch)

`window.innerWidth / innerHeight`, `camera.fov` and `Math.PI` enter as the
parameters `innerW`, `innerH`, `fov`, `piQ`.  The JS `isFinite` guards cannot
be modelled over `ℚ` (every rational is finite); the JS values that would be
`NaN`/`Infinity` arise only from division by zero, which in the totalized
`ℚ` model yields `0` and is caught by the very same `distance <= 0` fallback
branch. -/

/-- The x components `originalPositions[i*3] ?? 0` scanned by the
bounding-box loop. -/
def cameraXs (positions : List ℚ) (count : ℕ) : List ℚ :=
  (List.range count).map (fun i => positions.getD (i * 3) 0)

/-- The y components `originalPositions[i*3+1] ?? 0`. -/
def cameraYs (positions : List ℚ) (count : ℕ) : List ℚ :=
  (List.range count).map (fun i => positions.getD (i * 3 + 1) 0)

/-- Minimum of a scan list.  The JS loop seeds with `Infinity`; for the
nonempty lists reached past the `count === 0` guard, seeding with the head
is equivalent. -/
def listMin (l : List ℚ) : ℚ := l.foldl min (l.headD 0)

/-- Maximum of a scan list (JS seeds with `-Infinity`). -/
def listMax (l : List ℚ) : ℚ := l.foldl max (l.headD 0)

/-- `size.x = maxX - minX`. -/
def cameraSizeX (positions : List ℚ) (count : ℕ) : ℚ :=
  listMax (cameraXs positions count) - listMin (cameraXs positions count)

/-- `size.y = maxY - minY`. -/
def cameraSizeY (positions : List ℚ) (count : ℕ) : ℚ :=
  listMax (cameraYs positions count) - listMin (cameraYs positions count)

/-- `distance = Math.min(distanceForWidth, distanceForHeight)` with the
small-angle approximation `tanHalfFov = halfFovRad`. -/
def cameraDistance (innerW innerH fov piQ : ℚ) (positions : List ℚ) (count : ℕ) : ℚ :=
  let screenAspect := innerW / innerH
  let fovRad := fov * (piQ / 180)
  let halfFovRad := fovRad / 2
  let tanHalfFov := halfFovRad
  let distanceForWidth := (cameraSizeX positions count / 2) / (tanHalfFov * screenAspect)
  let distanceForHeight := (cameraSizeY positions count / 2) / tanHalfFov
  min distanceForWidth distanceForHeight

/-- The new `targetCameraZ` computed by the `userData` branch of
`updateCameraForParticles` from the current set's `originalPositions` and
`count`. -/
def updateCameraForParticlesZ (innerW innerH fov piQ : ℚ) (positions : List ℚ)
    (count : ℕ) : ℚ :=
  if count = 0 ∨ positions.length = 0 then 5
  else if cameraSizeX positions count ≤ 0 ∨ cameraSizeY positions count ≤ 0 then 5
  else if cameraDistance innerW innerH fov piQ positions count ≤ 0 ∨
      1000 < cameraDistance innerW innerH fov piQ positions count then 5
  else cameraDistance innerW innerH fov piQ positions count * 0.5

/-! ## The transition driver (`transitionToNext`) -/

/-- Camera environment read by `updateCameraForParticles`. -/
structure CamCfg where
  innerW : ℚ
  innerH : ℚ
  fov : ℚ
  piQ : ℚ

/-- The mutable component state touched by `transitionToNext` and its
animation loop.  `scene` is the list of particle-mesh ids currently added to
the scene; `disposedGeometries` / `disposedMaterials` log each
`geometry.dispose()` / `material.dispose()` call; `autoAdvanceScheduled`
records that `startAutoAdvance()` was called. -/
structure Driver where
  scene : List ℕ
  currentParticles : Option PSet
  nextParticles : Option PSet
  currentImageIndex : ℕ
  isTransitioning : Bool
  targetCameraZ : ℚ
  disposedGeometries : List ℕ
  disposedMaterials : List ℕ
  autoAdvanceScheduled : Bool

/-- One call of the `animateTransition` closure body, up to the
`baseProgress < 1` test: explode the current set (if any), implode the next
set (if any). -/
def animateFrameState (O : Oracles) (duration : ℚ) (fr : Frame) (s : Driver) :
    Driver :=
  let s1 :=
    match s.currentParticles with
    | some cp =>
      { s with currentParticles := some (explodeSet O duration fr.elapsed fr.rnd cp) }
    | none => s
  match s1.nextParticles with
  | some np => { s1 with nextParticles := some (implodeSet duration fr.elapsed np) }
  | none => s1

/-- The completion branch of `animateTransition` (`baseProgress >= 1`):
remove and dispose the outgoing set, promote the incoming set, update
`currentImageIndex`, clear `isTransitioning`, run the camera framer, and
schedule auto-advance when enabled. -/
def completeTransition (cfg : CamCfg) (autoAdvance : Bool) (nextIndex : ℕ)
    (s : Driver) : Driver :=
  let s1 :=
    match s.currentParticles with
    | some cp =>
      { s with
        scene := s.scene.erase cp.id
        disposedGeometries := s.disposedGeometries ++ [cp.id]
        disposedMaterials := s.disposedMaterials ++ [cp.id] }
    | none => s
  let s2 :=
    { s1 with
      currentParticles := s1.nextParticles
      nextParticles := none
      currentImageIndex := nextIndex
      isTransitioning := false }
  let s3 :=
    match s2.currentParticles with
    | some cp =>
      { s2 with
        targetCameraZ := updateCameraForParticlesZ cfg.innerW cfg.innerH cfg.fov
          cfg.piQ cp.originalPositions cp.count }
    | none => s2
  if autoAdvance then { s3 with autoAdvanceScheduled := true } else s3

/-- The frame loop started by `animateTransition()`: each frame runs the
per-set updates, then either re-arms `requestAnimationFrame`
(`baseProgress < 1`) or completes the transition. -/
def runTransition (O : Oracles) (cfg : CamCfg) (duration : ℚ) (autoAdvance : Bool)
    (nextIndex : ℕ) (s : Driver) : List Frame → Driver
  | [] => s
  | fr :: rest =>
    let s2 := animateFrameState O duration fr s
    if min (fr.elapsed / duration) 1 < 1 then
      runTransition O cfg duration autoAdvance nextIndex s2 rest
    else
      completeTransition cfg autoAdvance nextIndex s2

/-- The far-seeding loop of `transitionToNext` (and `loadInitialImage`):
`scale = 10 + sqrt(x*x + y*y) * 5`, far position
`(x*scale, y*scale, (Math.random() - 0.5) * 20)`.  `sqrtQ` is the
`Math.sqrt` oracle, `randZ` the per-particle random draw. -/
def seedFarF (sqrtQ : ℚ → ℚ) (randZ : ℕ → ℚ) (i : ℕ) (cur : ℚ × ℚ × ℚ) :
    ℚ × ℚ × ℚ :=
  let x := cur.1
  let y := cur.2.1
  let distance := sqrtQ (x * x + y * y)
  let scale := 10 + distance * 5
  (x * scale, y * scale, (randZ i - 0.5) * 20)

/-- Apply the far-seeding loop to a freshly sampled particle set. -/
def seedFar (sqrtQ : ℚ → ℚ) (randZ : ℕ → ℚ) (ps : PSet) : PSet :=
  { ps with positions := mapParticles ps.count (seedFarF sqrtQ randZ) ps.positions }

/-- `transitionToNext`.  The awaited result of `imageToParticles(nextImageUrl)`
enters as `sample` (`Except.error` is the rejected promise caught by the
`catch` block).  `frames` is the sequence of animation frames the browser
delivers. -/
def transitionToNext (O : Oracles) (cfg : CamCfg) (sqrtQ : ℚ → ℚ)
    (images : List ℕ) (duration : ℚ) (autoAdvance : Bool)
    (sample : Except Unit PSet) (randZ : ℕ → ℚ) (frames : List Frame)
    (s : Driver) : Driver :=
  if s.isTransitioning ∨ images.length = 0 then s
  else
    let s1 := { s with isTransitioning := true }
    let nextIndex := (s.currentImageIndex + 1) % images.length
    match images[nextIndex]? with
    | none => { s1 with isTransitioning := false }
    | some _ =>
      match sample with
      | Except.error _ => { s1 with isTransitioning := false }
      | Except.ok ps =>
        let seeded := seedFar sqrtQ randZ ps
        let s2 := { s1 with
          nextParticles := some seeded
          scene := s1.scene ++ [seeded.id] }
        runTransition O cfg duration autoAdvance nextIndex s2 frames

/-! ## Structural lemmas about one animation frame -/

lemma explodeSet_id (O : Oracles) (d e : ℚ) (r : ℕ → ℚ × ℚ × ℚ × ℚ) (cp : PSet) :
    (explodeSet O d e r cp).id = cp.id := rfl

lemma implodeSet_id (d e : ℚ) (np : PSet) : (implodeSet d e np).id = np.id := rfl

lemma implodeSet_originalPositions (d e : ℚ) (np : PSet) :
    (implodeSet d e np).originalPositions = np.originalPositions := rfl

lemma implodeSet_count (d e : ℚ) (np : PSet) : (implodeSet d e np).count = np.count := rfl

/-- One frame only rewrites the two option-valued particle-set fields. -/
lemma animateFrameState_eq (O : Oracles) (d : ℚ) (fr : Frame) (s : Driver) :
    animateFrameState O d fr s =
      { s with
        currentParticles := s.currentParticles.map (explodeSet O d fr.elapsed fr.rnd)
        nextParticles := s.nextParticles.map (implodeSet d fr.elapsed) } := by
  obtain ⟨sc, cur, nxt, idx, tr, tz, dg, dm, aas⟩ := s
  unfold animateFrameState
  rcases cur with _ | cp <;> rcases nxt with _ | np <;> rfl

/-! ## C1 / C2: reentrancy guard and error abort of `transitionToNext` -/

/-- C1: a call to `transitionToNext` while `isTransitioning` is already `true`
or while the image list is empty returns immediately: the driver state is not
modified at all (no new session, `currentParticles`, `nextParticles`,
`currentImageIndex` and the scene contents untouched). -/
theorem transitionToNext_reentrancy_noop (O : Oracles) (cfg : CamCfg)
    (sqrtQ : ℚ → ℚ) (images : List ℕ) (duration : ℚ) (autoAdvance : Bool)
    (sample : Except Unit PSet) (randZ : ℕ → ℚ) (frames : List Frame) (s : Driver)
    (h : s.isTransitioning = true ∨ images.length = 0) :
    transitionToNext O cfg sqrtQ images duration autoAdvance sample randZ frames s = s := by
  unfold transitionToNext
  rcases h with h | h
  · rw [if_pos (Or.inl h)]
  · rw [if_pos (Or.inr h)]

/-- Witness for `transitionToNext_reentrancy_noop`: a busy driver is left
untouched. -/
theorem transitionToNext_reentrancy_noop_witness :
    ((true = true ∨ ([5, 6] : List ℕ).length = 0) ∧
      transitionToNext ⟨fun _ _ => 0, fun _ _ => 0, fun _ => 0⟩ ⟨1600, 900, 75, 3⟩
        (fun q => q) [5, 6] 1000 false (Except.error ()) (fun _ => 0) []
        ⟨[1], some ⟨1, [0, 0, 0], [0, 0, 0], [1, 1, 1], [0], 1, 0.9⟩, none, 0, true, 5,
          [], [], false⟩ =
        ⟨[1], some ⟨1, [0, 0, 0], [0, 0, 0], [1, 1, 1], [0], 1, 0.9⟩, none, 0, true, 5,
          [], [], false⟩) :=
  ⟨Or.inl rfl,
    transitionToNext_reentrancy_noop _ _ _ _ _ _ _ _ _ _ (Or.inl rfl)⟩

/-- C2: if sampling the next image fails (`imageToParticles` rejects), the
`catch` block resets `isTransitioning` to `false` and nothing else changes:
the previous `currentParticles` is untouched and still attached, nothing is
retried, and no auto-advance is scheduled for that cycle. -/
theorem transitionToNext_error_aborts (O : Oracles) (cfg : CamCfg) (sqrtQ : ℚ → ℚ)
    (images : List ℕ) (duration : ℚ) (autoAdvance : Bool) (er : Unit)
    (randZ : ℕ → ℚ) (frames : List Frame) (s : Driver)
    (h1 : s.isTransitioning = false) (h2 : images ≠ []) :
    transitionToNext O cfg sqrtQ images duration autoAdvance (Except.error er)
      randZ frames s = s := by
  obtain ⟨sc, cur, nxt, idx, tr, tz, dg, dm, aas⟩ := s
  simp only at h1
  subst h1
  have hpos : 0 < images.length := List.length_pos.mpr h2
  have hidx : (idx + 1) % images.length < images.length := Nat.mod_lt _ hpos
  unfold transitionToNext
  rw [if_neg (by simp [Nat.pos_iff_ne_zero.mp hpos])]
  simp only
  rw [List.getElem?_eq_getElem hidx]

/-- Witness for `transitionToNext_error_aborts`: a steady driver with one
current set survives a failed sample unchanged. -/
theorem transitionToNext_error_aborts_witness :
    ((false : Bool) = false ∧ ([5, 6] : List ℕ) ≠ [] ∧
      transitionToNext ⟨fun _ _ => 0, fun _ _ => 0, fun _ => 0⟩ ⟨1600, 900, 75, 3⟩
        (fun q => q) [5, 6] 1000 true (Except.error ()) (fun _ => 0) []
        ⟨[1], some ⟨1, [0, 0, 0], [0, 0, 0], [1, 1, 1], [0], 1, 0.9⟩, none, 0, false, 5,
          [], [], false⟩ =
        ⟨[1], some ⟨1, [0, 0, 0], [0, 0, 0], [1, 1, 1], [0], 1, 0.9⟩, none, 0, false, 5,
          [], [], false⟩) :=
  ⟨rfl, by simp,
    transitionToNext_error_aborts _ _ _ _ _ _ _ _ _ _ rfl (by simp)⟩

/-! ## C3: transition completion -/

/-- C3: once a frame with `baseProgress = 1` (`elapsed ≥ duration`) arrives,
the loop completes the transition: the outgoing set is removed from the scene
and its geometry and material are each disposed exactly once, the incoming
set is promoted to current (`nextParticles` cleared), `currentImageIndex` is
updated, `isTransitioning` is cleared, and the camera framer runs against the
new current set — afterwards exactly one set is current and zero outgoing. -/
theorem runTransition_completes (O : Oracles) (cfg : CamCfg) (duration : ℚ)
    (autoAdvance : Bool) (nextIndex : ℕ) :
    ∀ (pre : List Frame) (fr : Frame) (post : List Frame) (s : Driver) (cp np : PSet),
      s.currentParticles = some cp → s.nextParticles = some np →
      (∀ f ∈ pre, f.elapsed / duration < 1) → 1 ≤ fr.elapsed / duration →
      ∃ np' : PSet,
        (runTransition O cfg duration autoAdvance nextIndex s
            (pre ++ fr :: post)).scene = s.scene.erase cp.id ∧
        (runTransition O cfg duration autoAdvance nextIndex s
            (pre ++ fr :: post)).disposedGeometries =
          s.disposedGeometries ++ [cp.id] ∧
        (runTransition O cfg duration autoAdvance nextIndex s
            (pre ++ fr :: post)).disposedMaterials =
          s.disposedMaterials ++ [cp.id] ∧
        (runTransition O cfg duration autoAdvance nextIndex s
            (pre ++ fr :: post)).currentParticles = some np' ∧
        (runTransition O cfg duration autoAdvance nextIndex s
            (pre ++ fr :: post)).nextParticles = none ∧
        (runTransition O cfg duration autoAdvance nextIndex s
            (pre ++ fr :: post)).currentImageIndex = nextIndex ∧
        (runTransition O cfg duration autoAdvance nextIndex s
            (pre ++ fr :: post)).isTransitioning = false ∧
        (runTransition O cfg duration autoAdvance nextIndex s
            (pre ++ fr :: post)).targetCameraZ =
          updateCameraForParticlesZ cfg.innerW cfg.innerH cfg.fov cfg.piQ
            np.originalPositions np.count ∧
        (runTransition O cfg duration autoAdvance nextIndex s
            (pre ++ fr :: post)).autoAdvanceScheduled =
          (autoAdvance || s.autoAdvanceScheduled) ∧
        np'.id = np.id ∧ np'.originalPositions = np.originalPositions ∧
        np'.count = np.count := by
  intro pre
  induction pre with
  | nil =>
    intro fr post s cp np hc hn _hpre hfr
    have hstop : ¬ min (fr.elapsed / duration) 1 < 1 := by
      rw [min_lt_iff]
      push_neg
      exact ⟨hfr, le_refl 1⟩
    refine ⟨implodeSet duration fr.elapsed np, ?_⟩
    obtain ⟨sc, cur, nxt, idx, tr, tz, dg, dm, aas⟩ := s
    simp only at hc hn
    subst hc; subst hn
    simp only [List.nil_append, runTransition, if_neg hstop, animateFrameState_eq,
      Option.map_some, completeTransition]
    rcases autoAdvance with _ | _ <;>
      simp [explodeSet_id, implodeSet_id, implodeSet_originalPositions, implodeSet_count,
        explodeSet, implodeSet]
  | cons f pre ih =>
    intro fr post s cp np hc hn hpre hfr
    have hgo : min (f.elapsed / duration) 1 < 1 := by
      rw [min_lt_iff]
      exact Or.inl (hpre f (List.mem_cons_self f pre))
    have hc2 : (animateFrameState O duration f s).currentParticles =
        some (explodeSet O duration f.elapsed f.rnd cp) := by
      rw [animateFrameState_eq]
      simp [hc]
    have hn2 : (animateFrameState O duration f s).nextParticles =
        some (implodeSet duration f.elapsed np) := by
      rw [animateFrameState_eq]
      simp [hn]
    have hpre2 : ∀ g ∈ pre, g.elapsed / duration < 1 := by
      intro g hg
      exact hpre g (List.mem_cons_of_mem f hg)
    obtain ⟨np', h1, h2, h3, h4, h5, h6, h7, h8, h9, h10, h11, h12⟩ :=
      ih fr post (animateFrameState O duration f s)
        (explodeSet O duration f.elapsed f.rnd cp) (implodeSet duration f.elapsed np)
        hc2 hn2 hpre2 hfr
    have hrun : runTransition O cfg duration autoAdvance nextIndex s
        ((f :: pre) ++ fr :: post) =
        runTransition O cfg duration autoAdvance nextIndex
          (animateFrameState O duration f s) (pre ++ fr :: post) := by
      simp only [List.cons_append, runTransition, if_pos hgo, List.append_eq]
    refine ⟨np', ?_, ?_, ?_, ?_, ?_, ?_, ?_, ?_, ?_, ?_, ?_, ?_⟩
    · rw [hrun, h1, animateFrameState_eq]
      simp [explodeSet_id]
    · rw [hrun, h2, animateFrameState_eq]
      simp [explodeSet_id]
    · rw [hrun, h3, animateFrameState_eq]
      simp [explodeSet_id]
    · rw [hrun]; exact h4
    · rw [hrun]; exact h5
    · rw [hrun]; exact h6
    · rw [hrun]; exact h7
    · rw [hrun, h8, implodeSet_originalPositions, implodeSet_count]
    · rw [hrun, h9, animateFrameState_eq]
    · rw [h10, implodeSet_id]
    · rw [h11, implodeSet_originalPositions]
    · rw [h12, implodeSet_count]

/-- Concrete values used by the closed witness theorems. -/
def oracleDemo : Oracles := ⟨fun _ _ => 0, fun _ _ => 0, fun _ => 0⟩

def camDemo : CamCfg := ⟨1600, 900, 75, 3⟩

def psetDemo1 : PSet := ⟨1, [0, 0, 0], [0, 0, 0], [1, 1, 1], [0], 1, 0.9⟩

def psetDemo2 : PSet := ⟨2, [5, 5, 5], [0, 0, 0], [1, 1, 1], [0], 1, 0⟩

def frameDemo : Frame := ⟨1000, fun _ => (0, 0, 0, 0)⟩

def driverDemo : Driver :=
  ⟨[1, 2], some psetDemo1, some psetDemo2, 0, true, 5, [], [], false⟩

/-- Witness for `runTransition_completes`: one frame at `elapsed = duration`
completes a concrete transition. -/
theorem runTransition_completes_witness :
    driverDemo.currentParticles = some psetDemo1 ∧
    driverDemo.nextParticles = some psetDemo2 ∧
    (1 : ℚ) ≤ frameDemo.elapsed / 1000 ∧
    ∃ np' : PSet,
      (runTransition oracleDemo camDemo 1000 false 1 driverDemo
        [frameDemo]).currentParticles = some np' ∧
      (runTransition oracleDemo camDemo 1000 false 1 driverDemo
        [frameDemo]).nextParticles = none ∧
      (runTransition oracleDemo camDemo 1000 false 1 driverDemo
        [frameDemo]).disposedGeometries = driverDemo.disposedGeometries ++ [psetDemo1.id] := by
  refine ⟨rfl, rfl, by norm_num [frameDemo], ?_⟩
  obtain ⟨np', _h1, h2, _h3, h4, h5, _⟩ :=
    runTransition_completes oracleDemo camDemo 1000 false 1 [] frameDemo []
      driverDemo psetDemo1 psetDemo2 rfl rfl (by simp) (by norm_num [frameDemo])
  exact ⟨np', h4, h5, h2⟩

/-! ## C6 / C10: the implosion update -/

/-- Reading a particle triple after the update loop yields the body applied
to the pre-update triple. -/
lemma getTriple_mapParticles (count : ℕ) (f : ℕ → ℚ × ℚ × ℚ → ℚ × ℚ × ℚ)
    (positions : List ℚ) (hlen : positions.length = 3 * count) (i : ℕ)
    (hi : i < count) :
    getTriple (mapParticles count f positions) i = f i (getTriple positions i) := by
  rw [mapParticles_eq f count positions hlen]
  set L := (List.range count).map (fun j => f j (getTriple positions j)) with hL
  have hi' : i < L.length := by
    rw [hL]; simpa using hi
  have hget : L.get ⟨i, hi'⟩ = f i (getTriple positions i) := by
    simp [hL]
  have hflat : ∀ c : ℕ, c < 3 →
      (flatTriples L).getD (i * 3 + c) 0 =
      ([(f i (getTriple positions i)).1, (f i (getTriple positions i)).2.1,
        (f i (getTriple positions i)).2.2]).getD c 0 := by
    intro c hc
    unfold flatTriples
    rw [getD_flatMap_triple (fun p : ℚ × ℚ × ℚ => [p.1, p.2.1, p.2.2]) (fun _ => rfl)
      L i hi' c hc 0, hget]
  have h0 := hflat 0 (by omega)
  have h1 := hflat 1 (by omega)
  have h2 := hflat 2 (by omega)
  simp only [Nat.add_zero] at h0
  unfold getTriple
  rw [h0, h1, h2]
  simp [getTriple, List.getD_eq_getElem?_getD]

/-- The implode half of a frame, read back per particle. -/
lemma implodeSet_positions_getTriple (d e : ℚ) (np : PSet)
    (hlen : np.positions.length = 3 * np.count) (i : ℕ) (hi : i < np.count) :
    getTriple (implodeSet d e np).positions i =
      implodeF d np.delays np.originalPositions e i (getTriple np.positions i) := by
  unfold implodeSet
  exact getTriple_mapParticles np.count _ np.positions hlen i hi

lemma implode_k_bounds {t : ℚ} (h0 : 0 ≤ t) (h1 : t ≤ 1) :
    0.02 ≤ implodeSpeed * (1 + easeInOutCubic t * 10) ∧
    implodeSpeed * (1 + easeInOutCubic t * 10) ≤ 0.22 := by
  have hge := easeInOutCubic_nonneg h0 h1
  have hle := easeInOutCubic_le_one h0 h1
  unfold implodeSpeed
  constructor <;> nlinarith

lemma implode_progress_bounds (duration : ℚ) (hd : 0 < duration) (e delay : ℚ) :
    0 ≤ min (max 0 (e - delay) / duration) 1 ∧
    min (max 0 (e - delay) / duration) 1 ≤ 1 :=
  ⟨le_min (div_nonneg (le_max_left 0 (e - delay)) hd.le) zero_le_one, min_le_right _ 1⟩

/-- One scalar coordinate of the implode step: decay identity, strict
approach, and no overshoot. -/
lemma implode_coord_facts {k : ℚ} (hk1 : 0.02 ≤ k) (hk2 : k ≤ 0.22) (p t : ℚ) :
    (p + (t - p) * k) - t = (1 - k) * (p - t) ∧
    (p ≠ t → |(p + (t - p) * k) - t| < |p - t|) ∧
    0 ≤ ((p + (t - p) * k) - t) * (p - t) := by
  have heq : (p + (t - p) * k) - t = (1 - k) * (p - t) := by ring
  have h1k : (0 : ℚ) < 1 - k := by linarith
  refine ⟨heq, ?_, ?_⟩
  · intro hne
    rw [heq, abs_mul, abs_of_pos h1k]
    have habs : 0 < |p - t| := abs_pos.mpr (sub_ne_zero.mpr hne)
    nlinarith
  · rw [heq]
    nlinarith [sq_nonneg (p - t)]

/-- C10: each implode update step is a contraction that never overshoots:
the multiplier `k = implodeSpeed * (1 + easeInOutCubic t * 10)` lies in
`[0.02, 0.22]` (hence `< 1`), the new signed distance to the target is
`(1 - k)` times the old one in each coordinate — strictly smaller in absolute
value when they differ — and the position never passes beyond the target
(the signed distances keep the same sign). -/
theorem implodeF_contraction (duration : ℚ) (hd : 0 < duration)
    (delays origs : List ℚ) (elapsed : ℚ) (i : ℕ) (cur : ℚ × ℚ × ℚ) :
    0.02 ≤ implodeSpeed * (1 + easeInOutCubic
        (min (max 0 (elapsed - delays.getD i 0) / duration) 1) * 10) ∧
    implodeSpeed * (1 + easeInOutCubic
        (min (max 0 (elapsed - delays.getD i 0) / duration) 1) * 10) ≤ 0.22 ∧
    implodeSpeed * (1 + easeInOutCubic
        (min (max 0 (elapsed - delays.getD i 0) / duration) 1) * 10) < 1 ∧
    (implodeF duration delays origs elapsed i cur).1 - origs.getD (i * 3) 0 =
      (1 - implodeSpeed * (1 + easeInOutCubic
        (min (max 0 (elapsed - delays.getD i 0) / duration) 1) * 10)) *
        (cur.1 - origs.getD (i * 3) 0) ∧
    (implodeF duration delays origs elapsed i cur).2.1 - origs.getD (i * 3 + 1) 0 =
      (1 - implodeSpeed * (1 + easeInOutCubic
        (min (max 0 (elapsed - delays.getD i 0) / duration) 1) * 10)) *
        (cur.2.1 - origs.getD (i * 3 + 1) 0) ∧
    (implodeF duration delays origs elapsed i cur).2.2 - origs.getD (i * 3 + 2) 0 =
      (1 - implodeSpeed * (1 + easeInOutCubic
        (min (max 0 (elapsed - delays.getD i 0) / duration) 1) * 10)) *
        (cur.2.2 - origs.getD (i * 3 + 2) 0) ∧
    (cur.1 ≠ origs.getD (i * 3) 0 →
      |(implodeF duration delays origs elapsed i cur).1 - origs.getD (i * 3) 0| <
        |cur.1 - origs.getD (i * 3) 0|) ∧
    (cur.2.1 ≠ origs.getD (i * 3 + 1) 0 →
      |(implodeF duration delays origs elapsed i cur).2.1 - origs.getD (i * 3 + 1) 0| <
        |cur.2.1 - origs.getD (i * 3 + 1) 0|) ∧
    (cur.2.2 ≠ origs.getD (i * 3 + 2) 0 →
      |(implodeF duration delays origs elapsed i cur).2.2 - origs.getD (i * 3 + 2) 0| <
        |cur.2.2 - origs.getD (i * 3 + 2) 0|) ∧
    0 ≤ ((implodeF duration delays origs elapsed i cur).1 - origs.getD (i * 3) 0) *
      (cur.1 - origs.getD (i * 3) 0) ∧
    0 ≤ ((implodeF duration delays origs elapsed i cur).2.1 - origs.getD (i * 3 + 1) 0) *
      (cur.2.1 - origs.getD (i * 3 + 1) 0) ∧
    0 ≤ ((implodeF duration delays origs elapsed i cur).2.2 - origs.getD (i * 3 + 2) 0) *
      (cur.2.2 - origs.getD (i * 3 + 2) 0) := by
  have hb := implode_progress_bounds duration hd elapsed (delays.getD i 0)
  have hk := implode_k_bounds hb.1 hb.2
  set t := min (max 0 (elapsed - delays.getD i 0) / duration) 1 with ht
  set K := implodeSpeed * (1 + easeInOutCubic t * 10) with hK
  have hcomp1 : (implodeF duration delays origs elapsed i cur).1 =
      cur.1 + (origs.getD (i * 3) 0 - cur.1) * K := by
    rw [hK]
    simp only [implodeF]
    ring
  have hcomp2 : (implodeF duration delays origs elapsed i cur).2.1 =
      cur.2.1 + (origs.getD (i * 3 + 1) 0 - cur.2.1) * K := by
    rw [hK]
    simp only [implodeF]
    ring
  have hcomp3 : (implodeF duration delays origs elapsed i cur).2.2 =
      cur.2.2 + (origs.getD (i * 3 + 2) 0 - cur.2.2) * K := by
    rw [hK]
    simp only [implodeF]
    ring
  have f1 := implode_coord_facts hk.1 hk.2 cur.1 (origs.getD (i * 3) 0)
  have f2 := implode_coord_facts hk.1 hk.2 cur.2.1 (origs.getD (i * 3 + 1) 0)
  have f3 := implode_coord_facts hk.1 hk.2 cur.2.2 (origs.getD (i * 3 + 2) 0)
  refine ⟨hk.1, hk.2, lt_of_le_of_lt hk.2 (by norm_num), ?_, ?_, ?_, ?_, ?_, ?_, ?_, ?_, ?_⟩
  · rw [hcomp1]; exact f1.1
  · rw [hcomp2]; exact f2.1
  · rw [hcomp3]; exact f3.1
  · rw [hcomp1]; exact f1.2.1
  · rw [hcomp2]; exact f2.2.1
  · rw [hcomp3]; exact f3.2.1
  · rw [hcomp1]; exact f1.2.2
  · rw [hcomp2]; exact f2.2.2
  · rw [hcomp3]; exact f3.2.2

/-- Witness for `implodeF_contraction` at a concrete particle. -/
theorem implodeF_contraction_witness :
    (0 : ℚ) < 1000 ∧
    (implodeF 1000 [0] [0, 0, 0] 500 0 (5, 5, 5)).1 - ([0, 0, 0] : List ℚ).getD 0 0 =
      (1 - implodeSpeed * (1 + easeInOutCubic
        (min (max 0 ((500 : ℚ) - ([0] : List ℚ).getD 0 0) / 1000) 1) * 10)) *
        ((5 : ℚ) - ([0, 0, 0] : List ℚ).getD 0 0) :=
  ⟨by norm_num,
    (implodeF_contraction 1000 (by norm_num) [0] [0, 0, 0] 500 0 (5, 5, 5)).2.2.2.1⟩

lemma implode_step_ne_target {px tx k : ℚ} (hk : k < 1) (hne : px ≠ tx) :
    px + (tx - px) * k ≠ tx := by
  intro heq
  apply sub_ne_zero.mpr hne
  have h2 : (px - tx) * (1 - k) = 0 := by linear_combination heq
  rcases mul_eq_zero.mp h2 with h | h
  · exact h
  · exact absurd (by linarith : k = 1) (ne_of_lt hk)

/-- C6: on every frame, each incoming-set particle's new position is
`pos + (target - pos) * implodeSpeed * (1 + easeInOutCubic t * 10)` in each
coordinate, where `t = min(max(0, elapsed - delay[i]) / duration, 1)` lies in
`[0, 1]` (so the `clamp` of the spec is the same value): an exponential-decay
chase that does not reach the target in the step when it was not already
there. -/
theorem implode_update_formula (O : Oracles) (duration : ℚ) (hd : 0 < duration)
    (fr : Frame) (s : Driver) (np : PSet) (hnp : s.nextParticles = some np)
    (hlen : np.positions.length = 3 * np.count) (i : ℕ) (hi : i < np.count) :
    ∃ np' : PSet,
      (animateFrameState O duration fr s).nextParticles = some np' ∧
      (0 ≤ min (max 0 (fr.elapsed - np.delays.getD i 0) / duration) 1 ∧
        min (max 0 (fr.elapsed - np.delays.getD i 0) / duration) 1 ≤ 1) ∧
      np'.positions.getD (i * 3) 0 =
        np.positions.getD (i * 3) 0 +
          (np.originalPositions.getD (i * 3) 0 - np.positions.getD (i * 3) 0) *
            implodeSpeed * (1 + easeInOutCubic
              (min (max 0 (fr.elapsed - np.delays.getD i 0) / duration) 1) * 10) ∧
      np'.positions.getD (i * 3 + 1) 0 =
        np.positions.getD (i * 3 + 1) 0 +
          (np.originalPositions.getD (i * 3 + 1) 0 - np.positions.getD (i * 3 + 1) 0) *
            implodeSpeed * (1 + easeInOutCubic
              (min (max 0 (fr.elapsed - np.delays.getD i 0) / duration) 1) * 10) ∧
      np'.positions.getD (i * 3 + 2) 0 =
        np.positions.getD (i * 3 + 2) 0 +
          (np.originalPositions.getD (i * 3 + 2) 0 - np.positions.getD (i * 3 + 2) 0) *
            implodeSpeed * (1 + easeInOutCubic
              (min (max 0 (fr.elapsed - np.delays.getD i 0) / duration) 1) * 10) ∧
      (np.positions.getD (i * 3) 0 ≠ np.originalPositions.getD (i * 3) 0 →
        np'.positions.getD (i * 3) 0 ≠ np.originalPositions.getD (i * 3) 0) ∧
      (np.positions.getD (i * 3 + 1) 0 ≠ np.originalPositions.getD (i * 3 + 1) 0 →
        np'.positions.getD (i * 3 + 1) 0 ≠ np.originalPositions.getD (i * 3 + 1) 0) ∧
      (np.positions.getD (i * 3 + 2) 0 ≠ np.originalPositions.getD (i * 3 + 2) 0 →
        np'.positions.getD (i * 3 + 2) 0 ≠ np.originalPositions.getD (i * 3 + 2) 0) := by
  have hb := implode_progress_bounds duration hd fr.elapsed (np.delays.getD i 0)
  have hk := implode_k_bounds hb.1 hb.2
  set t := min (max 0 (fr.elapsed - np.delays.getD i 0) / duration) 1 with ht
  set K := implodeSpeed * (1 + easeInOutCubic t * 10) with hK
  have hKlt : K < 1 := lt_of_le_of_lt hk.2 (by norm_num)
  refine ⟨implodeSet duration fr.elapsed np, ?_, hb, ?_, ?_, ?_, ?_, ?_, ?_⟩
  · rw [animateFrameState_eq]
    simp [hnp]
  all_goals
    have htrip := implodeSet_positions_getTriple duration fr.elapsed np hlen i hi
  · have hx := congrArg Prod.fst htrip
    simp only [getTriple, implodeF] at hx
    rw [hx, ht]
  · have hy := congrArg (fun p : ℚ × ℚ × ℚ => p.2.1) htrip
    simp only [getTriple, implodeF] at hy
    rw [hy, ht]
  · have hz := congrArg (fun p : ℚ × ℚ × ℚ => p.2.2) htrip
    simp only [getTriple, implodeF] at hz
    rw [hz, ht]
  · intro hne
    have hx := congrArg Prod.fst htrip
    simp only [getTriple, implodeF] at hx
    rw [hx]
    have := implode_step_ne_target hKlt hne
    rw [hK, ht] at this
    convert this using 2
    ring
  · intro hne
    have hy := congrArg (fun p : ℚ × ℚ × ℚ => p.2.1) htrip
    simp only [getTriple, implodeF] at hy
    rw [hy]
    have := implode_step_ne_target hKlt hne
    rw [hK, ht] at this
    convert this using 2
    ring
  · intro hne
    have hz := congrArg (fun p : ℚ × ℚ × ℚ => p.2.2) htrip
    simp only [getTriple, implodeF] at hz
    rw [hz]
    have := implode_step_ne_target hKlt hne
    rw [hK, ht] at this
    convert this using 2
    ring

/-- Witness for `implode_update_formula` at a concrete incoming particle. -/
theorem implode_update_formula_witness :
    driverDemo.nextParticles = some psetDemo2 ∧
    psetDemo2.positions.length = 3 * psetDemo2.count ∧
    ∃ np' : PSet,
      (animateFrameState oracleDemo 1000 frameDemo driverDemo).nextParticles = some np' ∧
      np'.positions.getD 0 0 =
        psetDemo2.positions.getD 0 0 +
          (psetDemo2.originalPositions.getD 0 0 - psetDemo2.positions.getD 0 0) *
            implodeSpeed * (1 + easeInOutCubic
              (min (max 0 (frameDemo.elapsed - psetDemo2.delays.getD 0 0) / 1000) 1) * 10) := by
  refine ⟨rfl, rfl, ?_⟩
  obtain ⟨np', h1, _h2, h3, _⟩ :=
    implode_update_formula oracleDemo 1000 (by norm_num) frameDemo driverDemo psetDemo2
      rfl rfl 0 (by norm_num [psetDemo2])
  exact ⟨np', h1, h3⟩

/-! ## C9: material opacities during a transition -/

/-- C9: on every frame, the outgoing set's opacity is
`0.9 * (1 - easeInOutCubic (min (elapsed/duration) 1))` and the incoming
set's is `0.9 * easeInOutCubic (min (elapsed/duration) 1)`, both from the
un-delayed overall progress; as `elapsed` grows from `0` past `duration` the
outgoing value moves monotonically from `0.9` to `0` and the incoming one
from `0` to `0.9`. -/
theorem animateTransition_opacity (O : Oracles) (duration : ℚ) (hd : 0 < duration)
    (fr : Frame) (s : Driver) (cp np : PSet)
    (hc : s.currentParticles = some cp) (hn : s.nextParticles = some np) :
    ∃ cp' np' : PSet,
      (animateFrameState O duration fr s).currentParticles = some cp' ∧
      (animateFrameState O duration fr s).nextParticles = some np' ∧
      cp'.opacity = 0.9 * (1 - easeInOutCubic (min (fr.elapsed / duration) 1)) ∧
      np'.opacity = 0.9 * easeInOutCubic (min (fr.elapsed / duration) 1) ∧
      (∀ e₁ e₂ : ℚ, 0 ≤ e₁ → e₁ ≤ e₂ →
        0.9 * (1 - easeInOutCubic (min (e₂ / duration) 1)) ≤
          0.9 * (1 - easeInOutCubic (min (e₁ / duration) 1)) ∧
        0.9 * easeInOutCubic (min (e₁ / duration) 1) ≤
          0.9 * easeInOutCubic (min (e₂ / duration) 1)) ∧
      0.9 * (1 - easeInOutCubic (min (0 / duration) 1)) = 0.9 ∧
      0.9 * easeInOutCubic (min (0 / duration) 1) = 0 ∧
      (∀ e : ℚ, duration ≤ e →
        0.9 * (1 - easeInOutCubic (min (e / duration) 1)) = 0 ∧
        0.9 * easeInOutCubic (min (e / duration) 1) = 0.9) := by
  have hzero : min ((0 : ℚ) / duration) 1 = 0 := by
    rw [zero_div]
    exact min_eq_left zero_le_one
  have hone : ∀ e : ℚ, duration ≤ e → min (e / duration) 1 = 1 := by
    intro e he
    exact min_eq_right ((one_le_div hd).mpr he)
  have hmono : ∀ e₁ e₂ : ℚ, 0 ≤ e₁ → e₁ ≤ e₂ →
      easeInOutCubic (min (e₁ / duration) 1) ≤ easeInOutCubic (min (e₂ / duration) 1) := by
    intro e₁ e₂ h0 h12
    apply easeInOutCubic_monotone
    · exact le_min (div_nonneg h0 hd.le) zero_le_one
    · exact min_le_min ((div_le_div_iff_of_pos_right hd).mpr h12) (le_refl 1)
    · exact min_le_right _ 1
  refine ⟨explodeSet O duration fr.elapsed fr.rnd cp, implodeSet duration fr.elapsed np,
    ?_, ?_, rfl, rfl, ?_, ?_, ?_, ?_⟩
  · rw [animateFrameState_eq]
    simp [hc]
  · rw [animateFrameState_eq]
    simp [hn]
  · intro e₁ e₂ h0 h12
    have := hmono e₁ e₂ h0 h12
    constructor <;> nlinarith
  · rw [hzero, easeInOutCubic_zero]
    ring
  · rw [hzero, easeInOutCubic_zero]
    ring
  · intro e he
    rw [hone e he, easeInOutCubic_one]
    constructor <;> ring

/-- Witness for `animateTransition_opacity` at a concrete frame. -/
theorem animateTransition_opacity_witness :
    (0 : ℚ) < 1000 ∧
    driverDemo.currentParticles = some psetDemo1 ∧
    driverDemo.nextParticles = some psetDemo2 ∧
    ∃ cp' np' : PSet,
      (animateFrameState oracleDemo 1000 frameDemo driverDemo).currentParticles = some cp' ∧
      (animateFrameState oracleDemo 1000 frameDemo driverDemo).nextParticles = some np' ∧
      cp'.opacity = 0.9 * (1 - easeInOutCubic (min (frameDemo.elapsed / 1000) 1)) ∧
      np'.opacity = 0.9 * easeInOutCubic (min (frameDemo.elapsed / 1000) 1) := by
  refine ⟨by norm_num, rfl, rfl, ?_⟩
  obtain ⟨cp', np', h1, h2, h3, h4, _⟩ :=
    animateTransition_opacity oracleDemo 1000 (by norm_num) frameDemo driverDemo
      psetDemo1 psetDemo2 rfl rfl
  exact ⟨cp', np', h1, h2, h3, h4⟩

/-! ## C7: camera framer fallbacks -/

/-- C7: on every degenerate input — zero particle count, empty positions,
non-positive bounding size, or computed distance non-positive or above 1000 —
the camera framer sets `targetCameraZ` to the fixed default `5`; and whatever
the input, the value it assigns is a genuine rational in `(0, 500] ∪ {5}`
(never `NaN`/`Infinity`: in this model the JS values that would be non-finite
arise from division by zero, which totalized division sends to `0`, caught by
the same `distance <= 0` fallback). -/
theorem updateCameraForParticles_degenerate (innerW innerH fov piQ : ℚ)
    (positions : List ℚ) (count : ℕ)
    (h : count = 0 ∨ positions.length = 0 ∨ cameraSizeX positions count ≤ 0 ∨
      cameraSizeY positions count ≤ 0 ∨
      cameraDistance innerW innerH fov piQ positions count ≤ 0 ∨
      1000 < cameraDistance innerW innerH fov piQ positions count) :
    updateCameraForParticlesZ innerW innerH fov piQ positions count = 5 ∧
    ∀ (iW iH f p : ℚ) (ps : List ℚ) (n : ℕ),
      0 < updateCameraForParticlesZ iW iH f p ps n ∧
      updateCameraForParticlesZ iW iH f p ps n ≤ 500 := by
  constructor
  · unfold updateCameraForParticlesZ
    split_ifs with h1 h2 h3
    · rfl
    · rfl
    · rfl
    · exfalso
      tauto
  · intro iW iH f p ps n
    unfold updateCameraForParticlesZ
    split_ifs with h1 h2 h3
    · norm_num
    · norm_num
    · norm_num
    · push_neg at h3
      constructor <;> nlinarith [h3.1, h3.2]

/-- Witness for `updateCameraForParticles_degenerate`: the empty set falls
back to the default distance 5. -/
theorem updateCameraForParticles_degenerate_witness :
    updateCameraForParticlesZ 1600 900 75 3 [] 0 = 5 :=
  (updateCameraForParticles_degenerate 1600 900 75 3 [] 0 (Or.inl rfl)).1

/-! ## C8: far seeding -/

/-- C8 (amended): for every particle, the seeded far position is
`(x*scale, y*scale, (rand - 0.5)*20)` with
`scale = 10 + sqrt(x*x + y*y) * 5`, where `(x, y)` is the particle's target
position (the `positions` array read by the loop still equals
`originalPositions` at seeding time), and the z coordinate lies in
`[-10, 10)` for `rand ∈ [0, 1)`.  The seeding does *not* place every
particle outside the viewable frustum: see `seedFar_center_counterexample`. -/
theorem seedFar_far_positions (sqrtQ : ℚ → ℚ) (randZ : ℕ → ℚ) (ps : PSet)
    (hlen : ps.positions.length = 3 * ps.count)
    (hpo : ps.positions = ps.originalPositions) (i : ℕ) (hi : i < ps.count) :
    (seedFar sqrtQ randZ ps).positions.getD (i * 3) 0 =
      ps.originalPositions.getD (i * 3) 0 *
        (10 + sqrtQ (ps.originalPositions.getD (i * 3) 0 *
            ps.originalPositions.getD (i * 3) 0 +
          ps.originalPositions.getD (i * 3 + 1) 0 *
            ps.originalPositions.getD (i * 3 + 1) 0) * 5) ∧
    (seedFar sqrtQ randZ ps).positions.getD (i * 3 + 1) 0 =
      ps.originalPositions.getD (i * 3 + 1) 0 *
        (10 + sqrtQ (ps.originalPositions.getD (i * 3) 0 *
            ps.originalPositions.getD (i * 3) 0 +
          ps.originalPositions.getD (i * 3 + 1) 0 *
            ps.originalPositions.getD (i * 3 + 1) 0) * 5) ∧
    (seedFar sqrtQ randZ ps).positions.getD (i * 3 + 2) 0 = (randZ i - 0.5) * 20 ∧
    (0 ≤ randZ i → randZ i < 1 →
      -10 ≤ (seedFar sqrtQ randZ ps).positions.getD (i * 3 + 2) 0 ∧
      (seedFar sqrtQ randZ ps).positions.getD (i * 3 + 2) 0 < 10) := by
  have htrip : getTriple (seedFar sqrtQ randZ ps).positions i =
      seedFarF sqrtQ randZ i (getTriple ps.positions i) := by
    unfold seedFar
    exact getTriple_mapParticles ps.count _ ps.positions hlen i hi
  have hx := congrArg Prod.fst htrip
  have hy := congrArg (fun p : ℚ × ℚ × ℚ => p.2.1) htrip
  have hz := congrArg (fun p : ℚ × ℚ × ℚ => p.2.2) htrip
  simp only [getTriple, seedFarF] at hx hy hz
  rw [hpo] at hx hy
  refine ⟨hx, hy, hz, ?_⟩
  intro hr0 hr1
  rw [hz]
  constructor <;> linarith

/-- Witness for `seedFar_far_positions` at a concrete set. -/
theorem seedFar_far_positions_witness :
    psetDemo1.positions.length = 3 * psetDemo1.count ∧
    psetDemo1.positions = psetDemo1.originalPositions ∧
    (seedFar (fun q => q) (fun _ => 0.5) psetDemo1).positions.getD 2 0 =
      ((0.5 : ℚ) - 0.5) * 20 := by
  refine ⟨rfl, rfl, ?_⟩
  exact (seedFar_far_positions (fun q => q) (fun _ => 0.5) psetDemo1 rfl rfl 0
    (by norm_num [psetDemo1])).2.2.1

/-- C8 counterexample: the claim "this seeding places every particle outside
the viewable frustum regardless of its final layout position" fails.  A
particle whose target position is the canvas center `(0, 0, 0)` (together
with `Math.random() = 0.5`, so `sqrt 0 = 0` is modelled exactly) seeds to
exactly `(0, 0, 0)` — its own target, inside the layout region `[-1,1]²×{0}`
that any frustum viewing the layout must contain. -/
theorem seedFar_center_counterexample :
    (seedFar (fun q => q) (fun _ => 0.5)
        ⟨1, [0, 0, 0], [0, 0, 0], [0, 0, 0], [0], 1, 0.9⟩).positions =
      (⟨1, [0, 0, 0], [0, 0, 0], [0, 0, 0], [0], 1, 0.9⟩ : PSet).originalPositions := by
  show mapParticles 1 (seedFarF (fun q => q) (fun _ => 0.5)) [0, 0, 0] = [0, 0, 0]
  unfold mapParticles
  rw [show List.range 1 = [0] from rfl]
  norm_num [seedFarF, getTriple, set3]

/-- Witness for `sampler_target_position_normalized` at a 2×2 all-opaque
image sampled with density 1. -/
theorem sampler_target_position_normalized_witness :
    0 < 2 ∧ (0 : ℚ) < 1 ∧ (1 : ℚ) ≤ 1 ∧
    0 < (imageToParticlesData 2 2 1 (List.replicate 16 255) (fun _ _ => 0)
      (fun _ => 0)).count ∧
    ∃ x y : ℕ, x < 2 ∧ y < 2 ∧
      (imageToParticlesData 2 2 1 (List.replicate 16 255) (fun _ _ => 0)
        (fun _ => 0)).originalPositions.getD (0 * 3) 0 = (x : ℚ) / (2 : ℚ) * 2 - 1 ∧
      (imageToParticlesData 2 2 1 (List.replicate 16 255) (fun _ _ => 0)
        (fun _ => 0)).originalPositions.getD (0 * 3 + 1) 0 = 1 - (y : ℚ) / (2 : ℚ) * 2 ∧
      (imageToParticlesData 2 2 1 (List.replicate 16 255) (fun _ _ => 0)
        (fun _ => 0)).originalPositions.getD (0 * 3 + 2) 0 = 0 ∧
      -1 ≤ (imageToParticlesData 2 2 1 (List.replicate 16 255) (fun _ _ => 0)
        (fun _ => 0)).originalPositions.getD (0 * 3) 0 ∧
      (imageToParticlesData 2 2 1 (List.replicate 16 255) (fun _ _ => 0)
        (fun _ => 0)).originalPositions.getD (0 * 3) 0 ≤ 1 ∧
      -1 ≤ (imageToParticlesData 2 2 1 (List.replicate 16 255) (fun _ _ => 0)
        (fun _ => 0)).originalPositions.getD (0 * 3 + 1) 0 ∧
      (imageToParticlesData 2 2 1 (List.replicate 16 255) (fun _ _ => 0)
        (fun _ => 0)).originalPositions.getD (0 * 3 + 1) 0 ≤ 1 := by
  have hcount : 0 < (imageToParticlesData 2 2 1 (List.replicate 16 255) (fun _ _ => 0)
      (fun _ => 0)).count := by
    rw [imageToParticlesData_eq]
    show 0 < (survivors 2 2 (sampleStride 1) (List.replicate 16 255)).length
    rw [show sampleStride 1 = 1 by norm_num [sampleStride]]
    decide
  exact ⟨by norm_num, by norm_num, by norm_num, hcount,
    sampler_target_position_normalized 2 2 (by norm_num) (by norm_num) 1 (by norm_num)
      (by norm_num) (List.replicate 16 255) (fun _ _ => 0) (fun _ => 0) 0 hcount⟩

end ParticleTest
